import Mathlib

/-!
# Verification of the `mcf` graph-construction layer

Shallow embedding of `include/mcf/graph.hpp` from the `mcf` repository:
a directed-graph builder for min-cost-flow multiple-object tracking.

The header declares the public interface (`Add`, `Link`, `Reserve`, the
constructor, and the constants `ST`, `InternalSourceNode`,
`InternalSinkNode`, `FirstNonSourceSinkNode`) and defines the internal
accessors (`edges`, `mutable_edges`, `num_nodes`, `overwrite_num_nodes`)
inline.  The bodies of the declared-only members live in a `.cpp` file
that is not part of the sources at hand; those are modelled from the
spec, as marked in their doc comments.
-/

namespace Mcf

/-- A directed edge: `struct Edge` of graph.hpp.  `cost` is a `double`
in C++; no arithmetic is ever performed on it by this layer (it is only
stored and read back), so it is embedded as `ℚ` to keep every
definition executable. -/
structure Edge where
  source_index : Int
  target_index : Int
  cost : ℚ
deriving DecidableEq, Repr

/-- The state of `class Graph`: the growable edge list `edges_` and the
node-id counter `next_id_` (protected members of graph.hpp). -/
structure Graph where
  edges_ : List Edge
  next_id_ : Int
deriving DecidableEq, Repr

namespace Graph

/-- `static const int Graph::ST = 0` (graph.hpp): the one common public
handle for the source and the sink. -/
def ST : Int := 0

/-- Modelled from the spec: the out-of-line definition of
`Graph::InternalSourceNode` is missing from the sources (graph.hpp only
declares it, with doc comment `== 1`); the spec fixes its value to 1. -/
def InternalSourceNode : Int := 1

/-- Modelled from the spec: the out-of-line definition of
`Graph::InternalSinkNode` is missing from the sources (graph.hpp only
declares it, with doc comment `== 0`); the spec fixes its value to 0. -/
def InternalSinkNode : Int := 0

/-- Modelled from the spec: the out-of-line definition of
`Graph::FirstNonSourceSinkNode` is missing from the sources (graph.hpp
only declares it, with doc comment `== 2`); the spec fixes its value
to 2. -/
def FirstNonSourceSinkNode : Int := 2

/-- Modelled from the spec: the body of the constructor `Graph::Graph()`
is missing from the sources (declared only in graph.hpp).  The spec says
a Graph is created empty — no edges, zero locations, and the two fixed
source/sink nodes already allocated, so the node counter starts at
`FirstNonSourceSinkNode`. -/
def init : Graph :=
  { edges_ := [], next_id_ := FirstNonSourceSinkNode }

set_option linter.unusedVariables false in
/-- Modelled from the spec: the body of `Graph::Reserve(int)` is missing
from the sources (declared only in graph.hpp).  The spec says it is a
pure capacity hint with no observable behavior change and no error
condition, zero or negative hints being silently ignored; on the
observable state it is the identity. -/
def Reserve (g : Graph) (num_edges : Int) : Graph := g

/-- The internal entry node of the location with public handle `h`
(doubling map of the spec: `entry = 2·h`; for `h = ST = 0` this is the
internal sink node). -/
def entryNode (h : Int) : Int := 2 * h

/-- The internal exit node of the location with public handle `h`
(doubling map of the spec: `exit = 2·h + 1`; for `h = ST = 0` this is
the internal source node). -/
def exitNode (h : Int) : Int := 2 * h + 1

/-- Modelled from the spec: the body of `int Graph::Add(double)` is
missing from the sources (declared only in graph.hpp).  Per the spec it
allocates two new internal nodes (entry, exit) for a new location from
the node counter, appends the single observation edge entry → exit with
the given cost, and returns the freshly minted location handle (1 for
the first location, incrementing by 1 per call; under the doubling map
the handle is the entry index divided by two).  Returns the new graph
state together with the returned handle. -/
def Add (g : Graph) (cost : ℚ) : Graph × Int :=
  ({ edges_ := g.edges_ ++ [⟨g.next_id_, g.next_id_ + 1, cost⟩],
     next_id_ := g.next_id_ + 2 },
   g.next_id_.tdiv 2)

/-- Modelled from the spec: the body of `void Graph::Link(int, int,
double)` is missing from the sources (declared only in graph.hpp).  Per
the spec it appends one edge from the exit node of `src` to the entry
node of `dst` (doubling map), with no validation and no new nodes; for
`src = ST` the edge starts at the internal source node and for
`dst = ST` it ends at the internal sink node. -/
def Link (g : Graph) (src dst : Int) (cost : ℚ) : Graph :=
  { g with edges_ := g.edges_ ++ [⟨exitNode src, entryNode dst, cost⟩] }

/-- `const std::vector<Edge>& Graph::edges() const { return edges_; }`
(graph.hpp, inline): the read-only view of the edge sequence. -/
def edges (g : Graph) : List Edge := g.edges_

/-- `int Graph::num_nodes() const { return next_id_; }` (graph.hpp,
inline): the total number of internal nodes is read straight off the
node-id counter. -/
def num_nodes (g : Graph) : Int := g.next_id_

/-- `void Graph::overwrite_num_nodes(const int num_nodes) { next_id_ =
num_nodes; }` (graph.hpp, inline): unconditionally overwrites the
node-id counter. -/
def overwrite_num_nodes (g : Graph) (num_nodes : Int) : Graph :=
  { g with next_id_ := num_nodes }

end Graph

/-- Overwriting the cost of the element at position `i` of an edge
list, all other elements and the length untouched: the effect of the
C++ element write `edges[i].cost = c` on a `std::vector<Edge>`. -/
def setEdgeCost : List Edge → Nat → ℚ → List Edge
  | [], _, _ => []
  | e :: es, 0, c => { e with cost := c } :: es
  | e :: es, n + 1, c => e :: setEdgeCost es n c

namespace Graph

/-- `std::vector<Edge>& Graph::mutable_edges() { return edges_; }`
(graph.hpp, inline): the mutable view of the edge sequence; the
sequence it exposes is the member `edges_` itself, exactly as `edges`
exposes it. -/
def mutable_edges (g : Graph) : List Edge := g.edges_

/-- A write through the reference returned by `mutable_edges()` lands
in the member `edges_` itself, because `mutable_edges()` returns that
member by reference (graph.hpp, inline).  This definition embeds the
solver-side idiom `g.mutable_edges()[i].cost = c`:
the cost of the edge at position `i` is overwritten in place in the
member `edges_`. -/
def set_cost_via_mutable_edges (g : Graph) (i : Nat) (c : ℚ) : Graph :=
  { g with edges_ := setEdgeCost g.edges_ i c }

end Graph

/-- One call of the public mutating interface of `Graph`
(graph.hpp: `Add`, `Link`, `Reserve`). -/
inductive ApiCall where
  | add (cost : ℚ)
  | link (src dst : Int) (cost : ℚ)
  | reserve (num_edges : Int)
deriving DecidableEq, Repr

namespace Graph

/-- Execute one public-API call on a graph state (the handle returned
by `Add` is dropped; only the state is tracked). -/
def apply (g : Graph) : ApiCall → Graph
  | .add c => (g.Add c).1
  | .link s d c => g.Link s d c
  | .reserve n => g.Reserve n

/-- Execute a sequence of public-API calls, left to right. -/
def applyAll (g : Graph) (ops : List ApiCall) : Graph :=
  ops.foldl Graph.apply g

/-- Execute a sequence of `Add` calls, left to right, keeping only the
final state. -/
def addList (g : Graph) : List ℚ → Graph
  | [] => g
  | c :: cs => ((g.Add c).1).addList cs

/-- The number of registered locations of a graph state.  Per the spec,
`node_count` is two per registered location plus the two fixed
source/sink nodes, so the location count is recovered as
`(num_nodes - FirstNonSourceSinkNode) / 2`. -/
def numLocations (g : Graph) : Int :=
  (g.num_nodes - FirstNonSourceSinkNode) / 2

end Graph

/-- How many of the calls in a public-API call sequence are `Add` calls. -/
def countAdds : List ApiCall → Nat
  | [] => 0
  | .add _ :: ops => countAdds ops + 1
  | .link _ _ _ :: ops => countAdds ops
  | .reserve _ :: ops => countAdds ops

/-- How many of the calls in a public-API call sequence are `Link` calls. -/
def countLinks : List ApiCall → Nat
  | [] => 0
  | .add _ :: ops => countLinks ops
  | .link _ _ _ :: ops => countLinks ops + 1
  | .reserve _ :: ops => countLinks ops

end Mcf

open Mcf

/-! ## Helper lemmas -/

/-- Each `Add` call advances the node counter by 2, so a run of `Add`
calls advances it by twice the number of calls. -/
lemma addList_next_id (cs : List ℚ) :
    ∀ g : Graph, (g.addList cs).next_id_ = g.next_id_ + 2 * cs.length := by
  induction cs with
  | nil => intro g; simp [Graph.addList]
  | cons c cs ih =>
      intro g
      rw [Graph.addList, ih]
      simp [Graph.Add]
      ring

/-- The node counter of a fresh graph after `n` `Add` calls is
`2 * (n + 1)`. -/
lemma addList_init_next_id (cs : List ℚ) :
    (Graph.init.addList cs).next_id_ = 2 * ((cs.length : Int) + 1) := by
  rw [addList_next_id]
  simp [Graph.init, Graph.FirstNonSourceSinkNode]
  ring

/-- One public-API call appends `Add`/`Link` edges at the end and never
removes anything: the new edge list extends the old one. -/
lemma apply_edges_extend (g : Graph) (op : ApiCall) :
    ∃ t, (g.apply op).edges_ = g.edges_ ++ t := by
  cases op with
  | add c => exact ⟨_, rfl⟩
  | link s d c => exact ⟨_, rfl⟩
  | reserve n => exact ⟨[], by simp [Graph.apply, Graph.Reserve]⟩

/-- Edge-count bookkeeping for one public-API call. -/
lemma apply_edges_length (g : Graph) (op : ApiCall) :
    (g.apply op).edges_.length =
      g.edges_.length + countAdds [op] + countLinks [op] := by
  cases op <;> simp [Graph.apply, Graph.Add, Graph.Link, Graph.Reserve, countAdds, countLinks]

/-- Edge-count bookkeeping for a public-API call sequence. -/
lemma applyAll_edges_length (ops : List ApiCall) :
    ∀ g : Graph, (g.applyAll ops).edges_.length =
      g.edges_.length + countAdds ops + countLinks ops := by
  induction ops with
  | nil => intro g; simp [Graph.applyAll, countAdds, countLinks]
  | cons op ops ih =>
      intro g
      have hstep := apply_edges_length g op
      have htail := ih (g.apply op)
      rw [Graph.applyAll, List.foldl_cons]
      rw [show List.foldl Graph.apply (g.apply op) ops = (g.apply op).applyAll ops from rfl]
      rw [htail, hstep]
      cases op <;> simp [countAdds, countLinks] <;> omega

/-- A public-API call sequence only appends edges. -/
lemma applyAll_edges_extend (ops : List ApiCall) :
    ∀ g : Graph, ∃ t, (g.applyAll ops).edges_ = g.edges_ ++ t := by
  induction ops with
  | nil => intro g; exact ⟨[], by simp [Graph.applyAll]⟩
  | cons op ops ih =>
      intro g
      obtain ⟨t₁, ht₁⟩ := apply_edges_extend g op
      obtain ⟨t₂, ht₂⟩ := ih (g.apply op)
      refine ⟨t₁ ++ t₂, ?_⟩
      rw [Graph.applyAll, List.foldl_cons]
      rw [show List.foldl Graph.apply (g.apply op) ops = (g.apply op).applyAll ops from rfl]
      rw [ht₂, ht₁, List.append_assoc]

/-- `setEdgeCost` rewrites exactly the chosen position: position `i`
keeps its endpoints and gets the new cost, every other position reads
back unchanged. -/
lemma setEdgeCost_getElem? (l : List Edge) :
    ∀ (i j : Nat) (c : ℚ),
      (setEdgeCost l i c)[j]? =
        if j = i then l[j]?.map (fun e => { e with cost := c }) else l[j]? := by
  induction l with
  | nil => intro i j c; simp [setEdgeCost]
  | cons e es ih =>
      intro i j c
      cases i with
      | zero =>
          cases j with
          | zero => simp [setEdgeCost]
          | succ m => simp [setEdgeCost]
      | succ n =>
          cases j with
          | zero => simp [setEdgeCost]
          | succ m =>
              simp only [setEdgeCost, List.getElem?_cons_succ, ih n m c,
                Nat.succ_eq_add_one, Nat.add_right_cancel_iff]

/-- `setEdgeCost` preserves the length of the list. -/
lemma setEdgeCost_length (l : List Edge) :
    ∀ (i : Nat) (c : ℚ), (setEdgeCost l i c).length = l.length := by
  induction l with
  | nil => intro i c; simp [setEdgeCost]
  | cons e es ih =>
      intro i c
      cases i with
      | zero => simp [setEdgeCost]
      | succ n => simp [setEdgeCost, ih n c]

/-! ## Claim theorems -/

/-- C1: For every sequence of `Add` calls on a fresh `Graph`, the k-th
`Add` call (1-indexed) returns handle `k` — so location handles form
the dense range `[1, numLocations]` and handle `0` (= `ST`) never
denotes a location — and each `Add` call increases `num_nodes()` by
exactly 2. -/
theorem add_returns_dense_handles (cs : List ℚ) (c : ℚ) :
    ((Graph.init.addList cs).Add c).2 = (cs.length : Int) + 1 ∧
    Graph.ST < ((Graph.init.addList cs).Add c).2 ∧
    (∀ (g : Graph) (c2 : ℚ), (g.Add c2).1.num_nodes = g.num_nodes + 2) := by
  have hhandle : ((Graph.init.addList cs).Add c).2 = (cs.length : Int) + 1 := by
    show ((Graph.init.addList cs).next_id_).tdiv 2 = (cs.length : Int) + 1
    rw [addList_init_next_id]
    rw [Int.mul_tdiv_cancel_left _ (by decide : (2 : Int) ≠ 0)]
  refine ⟨hhandle, ?_, fun g c2 => rfl⟩
  rw [hhandle]
  have : (0 : Int) ≤ (cs.length : Int) := Int.natCast_nonneg _
  show Graph.ST < (cs.length : Int) + 1
  rw [show Graph.ST = (0 : Int) from rfl]
  omega

/-- C2: `Link(src, dst, cost)` appends exactly one new edge from the
exit node of `src` to the entry node of `dst`; for `src = ST` the edge
starts at the internal source node and for `dst = ST` it ends at the
internal sink node, never the same node for both roles; `Link` leaves
`num_nodes()` unchanged and its only side effect is the one appended
edge. -/
theorem link_appends_one_transition_edge (g : Graph) (src dst : Int) (c : ℚ) :
    (g.Link src dst c).edges =
      g.edges ++ [⟨Graph.exitNode src, Graph.entryNode dst, c⟩] ∧
    (g.Link src dst c).num_nodes = g.num_nodes ∧
    Graph.exitNode Graph.ST = Graph.InternalSourceNode ∧
    Graph.entryNode Graph.ST = Graph.InternalSinkNode ∧
    Graph.InternalSourceNode ≠ Graph.InternalSinkNode := by
  refine ⟨rfl, rfl, by decide, by decide, by decide⟩

/-- C3: For every graph state and every cost `c` (negative included),
`Add(c)` appends exactly one new edge at the end of the edge sequence,
with cost `c`, from the newly allocated location's entry node to its
exit node, and every previously existing edge is unchanged; on an
API-built graph the endpoints are exactly `entryNode h` and
`exitNode h` for the returned handle `h`. -/
theorem add_appends_observation_edge (g : Graph) (c : ℚ) (cs : List ℚ) :
    (g.Add c).1.edges = g.edges ++ [⟨g.next_id_, g.next_id_ + 1, c⟩] ∧
    ((Graph.init.addList cs).Add c).1.edges =
      (Graph.init.addList cs).edges ++
        [⟨Graph.entryNode ((Graph.init.addList cs).Add c).2,
          Graph.exitNode ((Graph.init.addList cs).Add c).2, c⟩] := by
  refine ⟨rfl, ?_⟩
  have hhandle : ((Graph.init.addList cs).Add c).2 = (cs.length : Int) + 1 :=
    (add_returns_dense_handles cs c).1
  have hnode : (Graph.init.addList cs).next_id_ = 2 * ((cs.length : Int) + 1) :=
    addList_init_next_id cs
  show (Graph.init.addList cs).edges_ ++
      [⟨(Graph.init.addList cs).next_id_, (Graph.init.addList cs).next_id_ + 1, c⟩] = _
  rw [hhandle, hnode]
  rfl

/-- C4: The contract constants have exactly the values `ST = 0`,
`InternalSinkNode = 0`, `InternalSourceNode = 1` and
`FirstNonSourceSinkNode = 2`; sink and source constants are distinct,
and the reserved handle `ST` aliases the source node when used as a
link origin and the sink node when used as a link destination. -/
theorem contract_constants :
    Graph.ST = 0 ∧ Graph.InternalSinkNode = 0 ∧
    Graph.InternalSourceNode = 1 ∧ Graph.FirstNonSourceSinkNode = 2 ∧
    Graph.InternalSourceNode ≠ Graph.InternalSinkNode ∧
    (∀ (g : Graph) (d : Int) (c : ℚ),
      (g.Link Graph.ST d c).edges.getLast? =
        some ⟨Graph.InternalSourceNode, Graph.entryNode d, c⟩) ∧
    (∀ (g : Graph) (s : Int) (c : ℚ),
      (g.Link s Graph.ST c).edges.getLast? =
        some ⟨Graph.exitNode s, Graph.InternalSinkNode, c⟩) := by
  refine ⟨rfl, rfl, rfl, rfl, by decide, ?_, ?_⟩
  · intro g d c
    show (g.edges_ ++ [_]).getLast? = _
    rw [List.getLast?_concat]
    rfl
  · intro g s c
    show (g.edges_ ++ [_]).getLast? = _
    rw [List.getLast?_concat]
    rfl

/-- C5: For every sequence of public-API calls (`Add`, `Link`,
`Reserve`) on a fresh `Graph`, the length of `edges()` equals the
number of `Add` calls plus the number of `Link` calls made so far; the
edge sequence only grows and no edge is implicitly removed. -/
theorem edges_length_equals_call_counts (ops : List ApiCall) (g : Graph) :
    (Graph.init.applyAll ops).edges.length = countAdds ops + countLinks ops ∧
    (g.applyAll ops).edges.length =
      g.edges.length + countAdds ops + countLinks ops ∧
    (∃ t, (g.applyAll ops).edges = g.edges ++ t) := by
  refine ⟨?_, applyAll_edges_length ops g, applyAll_edges_extend ops g⟩
  have h := applyAll_edges_length ops Graph.init
  simpa [Graph.init, Graph.edges] using h

/-- C6: A newly constructed `Graph` is empty: `edges()` has length 0,
there are zero registered locations, and `num_nodes()` equals 2 (the
two fixed source and sink nodes), so after the first `Add` call
`num_nodes()` equals 4. -/
theorem fresh_graph_is_empty (c : ℚ) :
    Graph.init.edges.length = 0 ∧
    Graph.init.numLocations = 0 ∧
    Graph.init.num_nodes = 2 ∧
    ((Graph.init.Add c).1).num_nodes = 4 := by
  refine ⟨rfl, by decide, by decide, ?_⟩
  show Graph.init.next_id_ + 2 = 4
  decide

/-- C7: For every graph state and every integer `n`,
`overwrite_num_nodes(n)` unconditionally sets the node count so that a
subsequent `num_nodes()` call returns exactly `n`, performs no
validation of `n`, and leaves the edge sequence unchanged. -/
theorem overwrite_num_nodes_sets_count (g : Graph) (n : Int) :
    (g.overwrite_num_nodes n).num_nodes = n ∧
    (g.overwrite_num_nodes n).edges = g.edges := ⟨rfl, rfl⟩

/-- C8: `edges()` and `mutable_edges()` expose the same underlying
storage, not a copy: the two views are the same list, and updating an
edge's cost through `mutable_edges()` is visible in a subsequent
`edges()` read — the written position carries the new cost while every
other position and the length are unchanged. -/
theorem mutable_edges_shares_storage (g : Graph) (i : Nat) (c : ℚ) :
    g.mutable_edges = g.edges ∧
    (g.set_cost_via_mutable_edges i c).edges.length = g.edges.length ∧
    (∀ j : Nat, (g.set_cost_via_mutable_edges i c).edges[j]? =
      if j = i then g.edges[j]?.map (fun e => { e with cost := c })
      else g.edges[j]?) := by
  exact ⟨rfl, setEdgeCost_length g.edges_ i c,
    fun j => setEdgeCost_getElem? g.edges_ i j c⟩

/-- C9: For every graph state and every integer `n` — zero and
negative included — calling `Reserve(n)` any number of times changes
neither `edges()` nor `num_nodes()`: it is a pure capacity hint with no
observable behavior change and no error condition. -/
theorem reserve_changes_nothing (g : Graph) (n : Int) (ns : List Int) :
    g.Reserve n = g ∧
    (g.Reserve n).edges = g.edges ∧
    (g.Reserve n).num_nodes = g.num_nodes ∧
    ns.foldl Graph.Reserve g = g := by
  refine ⟨rfl, rfl, rfl, ?_⟩
  induction ns with
  | nil => rfl
  | cons m ms ih => exact ih

/-- C10: `num_nodes()` and the allocator of internal node indices are
the same counter `next_id_`: after `overwrite_num_nodes(n)` a
`num_nodes()` read returns `n` and the next `Add` call allocates the
new location's entry and exit node indices starting at the overwritten
value `n` (entry `n`, exit `n + 1`), leaving the counter at `n + 2`. -/
theorem next_id_is_the_node_allocator (g : Graph) (n : Int) (c : ℚ) :
    (∀ g2 : Graph, g2.num_nodes = g2.next_id_) ∧
    (g.overwrite_num_nodes n).num_nodes = n ∧
    ((g.overwrite_num_nodes n).Add c).1.edges = g.edges ++ [⟨n, n + 1, c⟩] ∧
    ((g.overwrite_num_nodes n).Add c).1.num_nodes = n + 2 :=
  ⟨fun _ => rfl, rfl, rfl, rfl⟩
